import Mathlib

/-!
Verification of the conductor process orchestrator (5Sigma/conductor).

The Rust sources are shallowly embedded: pure functions become Lean
functions, iterators become step functions together with a drain that
collects every yielded item, and effectful calls (spawning a process,
starting a docker container, touching the filesystem) are recorded in an
explicit action trace while their outcomes are supplied by oracle
parameters.  Machine integers do not occur in the verified fragment.
-/

namespace Conductor

/-- Environment maps (Rust HashMap of String to String).  An assoc list read
through lookupEnv (first matching key wins) models the map contents;
HashMap::extend, which overwrites existing keys with the overlay's entries,
becomes prepending the overlay. -/
abbrev Env := List (String × String)

/-- Lookup in an environment map: the value of the first entry with the key. -/
def lookupEnv (e : Env) (k : String) : Option String :=
  (e.find? (fun kv => kv.1 == k)).map (fun kv => kv.2)

/-- HashMap::extend: every entry of the overlay overrides the base. -/
def extendEnv (base overlay : Env) : Env := overlay ++ base

/-- Rust str::to_lowercase, used by every name lookup. -/
def lowercase (s : String) : String := String.mk (s.data.map Char.toLower)

/-- Rust Result, kept as data so that traces stay decidably comparable. -/
inductive RustResult (ε : Type) where
  | ok : RustResult ε
  | err (e : ε) : RustResult ε
deriving DecidableEq, Repr

/-- TerminalColor (component.rs): the fixed set of output colors. -/
inductive TerminalColor where
  | blue | green | yellow | purple | white | red | cyan
deriving DecidableEq, Repr

/-- Commands (mod.rs): a task's command field, either one shell line or a
list of shell lines. -/
inductive Commands where
  | single (s : String)
  | multiple (vs : List String)
deriving DecidableEq, Repr

/-- Vec::pop: removes and returns the last element, if any. -/
def vecPop {α : Type} (vs : List α) : Option α × List α :=
  match vs.getLast? with
  | none => (none, vs)
  | some x => (some x, vs.dropLast)

/-- Iterator::next for Commands (mod.rs lines 36-52): a Single value is
replaced by Multiple [] and its string is yielded; a Multiple value yields
Vec::pop of its list, that is, the last element. -/
def Commands.next : Commands → Option String × Commands
  | .single s => (some s, .multiple [])
  | .multiple vs =>
    match vecPop vs with
    | (o, rest) => (o, .multiple rest)

/-- Number of items the Commands iterator can still yield. -/
def Commands.size : Commands → Nat
  | .single _ => 1
  | .multiple vs => vs.length

/-- Driving Commands::next n times, collecting the yielded strings. -/
def collectSteps : Nat → Commands → List String
  | 0, _ => []
  | n + 1, c =>
    match Commands.next c with
    | (none, _) => []
    | (some s, rest) => s :: collectSteps n rest

/-- The impl Into Vec String for Commands (mod.rs lines 24-28): collecting
the iterator to exhaustion. -/
def Commands.collect (c : Commands) : List String := collectSteps c.size c

/-- Task (task.rs): a named ordered command pipeline with dependencies.
PathBuf values are embedded as strings. -/
structure Task where
  name : String
  description : Option String
  dependencies : List String
  path : Option String
  commands : Commands
  env : Env
deriving DecidableEq, Repr

/-- Component (component.rs), as the resolver in project.rs uses it:
find_component_task iterates component tasks as named Task values, so the
tasks field is embedded as the list of those tasks. -/
structure Component where
  name : String
  path : Option String
  keep_alive : Bool
  color : TerminalColor
  env : Env
  tasks : List Task
  repo : Option String
  delay : Option Nat
  start : String
  init : List String
  tags : List String
  retry : Bool
  default : Bool
  services : List String
deriving DecidableEq, Repr

/-- Component::get_path: the configured path, defaulting to the name. -/
def Component.get_path (c : Component) : String := c.path.getD c.name

/-- Group (group.rs). -/
structure Group where
  name : String
  components : List String
  env : Env
deriving DecidableEq, Repr

/-- ServiceType (service.rs): only docker containers exist. -/
inductive ServiceType where
  | dockerContainer
deriving DecidableEq, Repr

/-- Service (service.rs). -/
structure Service where
  service_type : ServiceType
  container : Option String
  name : String
deriving DecidableEq, Repr

/-- Service::get_container_name: the container field, defaulting to name. -/
def Service.get_container_name (s : Service) : String := s.container.getD s.name

/-- Project (project.rs): the root aggregate. -/
structure Project where
  name : String
  components : List Component
  groups : List Group
  services : List Service
  tasks : List Task
  root_path : String
  env : Env
deriving DecidableEq, Repr

/-- Project::service_by_name (project.rs lines 35-44): first service whose
name matches case-insensitively, cloned out. -/
def Project.service_by_name (p : Project) (name : String) : Option Service :=
  match p.services.find? (fun s => lowercase s.name == lowercase name) with
  | some s => some s
  | none => none

/-- Project::find_component (project.rs lines 55-60). -/
def Project.find_component (p : Project) (name : String) : Option Component :=
  p.components.find? (fun c => lowercase c.name == lowercase name)

/-- Project::find_group (project.rs lines 62-67). -/
def Project.find_group (p : Project) (name : String) : Option Group :=
  p.groups.find? (fun g => lowercase g.name == lowercase name)

/-- Project::find_component_task (project.rs lines 69-76): the first
component owning a task whose qualified componentName:taskName form matches
the query case-insensitively. -/
def Project.find_component_task (p : Project) (name : String) :
    Option (Component × Task) :=
  p.components.findSome? (fun c =>
    (c.tasks.find? (fun t =>
        lowercase name == lowercase (c.name ++ ":" ++ t.name))).map
      (fun t => (c, t)))

/-- Project::find_project_task (project.rs lines 78-84). -/
def Project.find_project_task (p : Project) (name : String) : Option Task :=
  p.tasks.find? (fun t => lowercase t.name == lowercase name)

/-- The result r is the first element of l satisfying pred, in declaration
order, and is none exactly when no element satisfies pred. -/
def FirstMatch {α : Type} (l : List α) (pred : α → Bool) (r : Option α) : Prop :=
  (r = none ↔ ∀ x ∈ l, pred x = false) ∧
  (∀ x, r = some x →
    pred x = true ∧ ∃ l1 l2, l = l1 ++ x :: l2 ∧ ∀ y ∈ l1, pred y = false)

/-- The per-service Result yielded by ServiceLauncher and ServiceTerminator
(service.rs): Ok carries the service, Err carries the service paired with an
io error whose payload is abstracted away. -/
inductive ServiceResult where
  | ok (s : Service)
  | err (s : Service)
deriving DecidableEq, Repr

/-- ServiceLauncher (service.rs lines 59-81): a lazy start-on-demand
sequence over a Vec of services. -/
structure ServiceLauncher where
  services : List Service
deriving DecidableEq, Repr

/-- ServiceTerminator (service.rs lines 83-105). -/
structure ServiceTerminator where
  services : List Service
deriving DecidableEq, Repr

/-- Iterator::next for ServiceLauncher: pops the last service of the Vec,
performs its start (outcome given by the startOk oracle) and yields that
service's Result.  The third component records which starts this single
call performed. -/
def ServiceLauncher.next (startOk : Service → Bool) (it : ServiceLauncher) :
    Option ServiceResult × ServiceLauncher × List Service :=
  match vecPop it.services with
  | (none, rest) => (none, ⟨rest⟩, [])
  | (some s, rest) =>
    (some (if startOk s then .ok s else .err s), ⟨rest⟩, [s])

/-- Iterator::next for ServiceTerminator: as the launcher, performing the
popped service's stop instead. -/
def ServiceTerminator.next (stopOk : Service → Bool) (it : ServiceTerminator) :
    Option ServiceResult × ServiceTerminator × List Service :=
  match vecPop it.services with
  | (none, rest) => (none, ⟨rest⟩, [])
  | (some s, rest) =>
    (some (if stopOk s then .ok s else .err s), ⟨rest⟩, [s])

/-- Driving ServiceLauncher::next up to n times: the items yielded and the
starts performed, in order. -/
def launcherSteps (startOk : Service → Bool) :
    Nat → ServiceLauncher → List ServiceResult × List Service
  | 0, _ => ([], [])
  | n + 1, it =>
    match ServiceLauncher.next startOk it with
    | (none, _, _) => ([], [])
    | (some r, rest, started) =>
      match launcherSteps startOk n rest with
      | (rs, ss) => (r :: rs, started ++ ss)

/-- Iterating a ServiceLauncher to exhaustion. -/
def ServiceLauncher.drain (startOk : Service → Bool) (it : ServiceLauncher) :
    List ServiceResult × List Service :=
  launcherSteps startOk it.services.length it

/-- Driving ServiceTerminator::next up to n times. -/
def terminatorSteps (stopOk : Service → Bool) :
    Nat → ServiceTerminator → List ServiceResult × List Service
  | 0, _ => ([], [])
  | n + 1, it =>
    match ServiceTerminator.next stopOk it with
    | (none, _, _) => ([], [])
    | (some r, rest, stopped) =>
      match terminatorSteps stopOk n rest with
      | (rs, ss) => (r :: rs, stopped ++ ss)

/-- Iterating a ServiceTerminator to exhaustion. -/
def ServiceTerminator.drain (stopOk : Service → Bool) (it : ServiceTerminator) :
    List ServiceResult × List Service :=
  terminatorSteps stopOk it.services.length it

/-- One observable operation of a run, in the order the resolver and the
supervisor perform them.  task_line is one blocking runTaskCommand call of a
command line owned by the named task; spawn is one Supervisor::spawn_component
call with its call-site extra env; init is the single blocking
Supervisor::init call; service_started and service_stopped are docker
start and stop attempts made while a component-scoped task runs. -/
inductive Action where
  | task_line (ownerName : String) (cmd : String)
  | service_started (s : Service)
  | service_stopped (s : Service)
  | spawn (c : Component) (extra_env : Env)
  | init
deriving DecidableEq, Repr

/-- Supervisor::run_component_services and shutdown_component_services
(supervisor.rs lines 38-61): the component's service names resolved through
service_by_name, unresolvable names dropped. -/
def Supervisor.component_services (p : Project) (c : Component) : List Service :=
  c.services.filterMap (fun sn => p.service_by_name sn)

/-- The start attempts made by exhausting the ServiceLauncher of a component
(the launcher pops from the back, so attempts run in reverse declaration
order; cf. launcher_drain_spec). -/
def service_start_attempts (p : Project) (c : Component) : List Action :=
  (Supervisor.component_services p c).reverse.map Action.service_started

/-- The stop attempts made by exhausting the ServiceTerminator of a
component. -/
def service_stop_attempts (p : Project) (c : Component) : List Action :=
  (Supervisor.component_services p c).reverse.map Action.service_stopped

/-- SupervisedCommand: the blocking command bundle project.rs hands to
Supervisor::run.  project.rs references the type but its declaration is not
among the sources here.  Modelled from the spec: the fields are exactly the
ones Project::run_project_task and Project::run_component_task fill in. -/
structure SupervisedCommand where
  commands : List String
  env : Env
  path : String
  color : TerminalColor
  keep_alive : Bool
  name : String
  delay : Option Nat
  retry : Bool
deriving DecidableEq, Repr

/-- Modelled from the spec: Supervisor::run (called by project.rs with a ?
operator, not among the sources here) executes each command line of the
bundle synchronously and strictly sequentially through runTaskCommand, and
per-command failures are not propagated as run errors (spec section 7:
only configuration-load and resolution failures are returned as errors), so
the call reports success. -/
def Supervisor.run (cmd : SupervisedCommand) : List Action × RustResult String :=
  (cmd.commands.map (Action.task_line cmd.name), .ok)

/-- PathBuf::push on the string embedding of paths. -/
def pathJoin (a b : String) : String := a ++ "/" ++ b

/-- The SupervisedCommand built by Project::run_project_task (project.rs
lines 86-102): project env extended by the task env, the task path
defaulting to the project root. -/
def project_task_command (p : Project) (t : Task) : SupervisedCommand :=
  ⟨t.commands.collect, extendEnv p.env t.env, t.path.getD p.root_path,
    TerminalColor.white, false, t.name, none, false⟩

/-- The SupervisedCommand built by Project::run_component_task (project.rs
lines 104-130): project env extended by component env extended by task env,
the task path defaulting to root joined with the component path. -/
def component_task_command (p : Project) (c : Component) (t : Task) :
    SupervisedCommand :=
  ⟨t.commands.collect, extendEnv (extendEnv p.env c.env) t.env,
    t.path.getD (pathJoin p.root_path c.get_path),
    TerminalColor.white, false, c.name ++ ":" ++ t.name, none, false⟩

/-- The call shapes of the mutual recursion between Project::run_task_names,
run_project_task and run_component_task.  names is a run_task_names call;
projectPass is its first pass over the project tasks the names resolved to;
componentPass its second pass over the raw names looking for
component-scoped tasks; ptask and ctask run one task after its dependency
chain. -/
inductive ResolveCall where
  | names (ns : List String)
  | projectPass (ts : List Task)
  | componentPass (ns : List String)
  | ptask (t : Task)
  | ctask (c : Component) (t : Task)

/-- The task resolution of project.rs as one fuel-driven recursion (the
source recurses into task dependencies without cycle detection, spec
section 9, so it can diverge; none models that divergence).  The Bool is
the task_running flag of run_task_names: whether the call ran at least one
task.  The String error channel of the Rust signatures never fires because
Supervisor::run reports success, so the payload is the success value. -/
def resolveTasks (p : Project) : Nat → ResolveCall → Option (List Action × Bool)
  | 0, _ => none
  | f + 1, call =>
    match call with
    | .names ns => do
      let (a1, r1) ←
        resolveTasks p f (.projectPass (ns.filterMap p.find_project_task))
      let (a2, r2) ← resolveTasks p f (.componentPass ns)
      some (a1 ++ a2, r1 || r2)
    | .projectPass [] => some ([], false)
    | .projectPass (t :: rest) => do
      let (a, _) ← resolveTasks p f (.ptask t)
      let (b, _) ← resolveTasks p f (.projectPass rest)
      some (a ++ b, true)
    | .componentPass [] => some ([], false)
    | .componentPass (n :: rest) =>
      match p.find_component_task n with
      | none => resolveTasks p f (.componentPass rest)
      | some (c, t) => do
        let (a, _) ← resolveTasks p f (.ctask c t)
        let (b, _) ← resolveTasks p f (.componentPass rest)
        some (service_start_attempts p c ++ a ++
          service_stop_attempts p c ++ b, true)
    | .ptask t => do
      let (a, _) ← resolveTasks p f (.names t.dependencies)
      some (a ++ (Supervisor.run (project_task_command p t)).1, true)
    | .ctask c t => do
      let (a, _) ← resolveTasks p f (.names t.dependencies)
      some (a ++ (Supervisor.run (component_task_command p c t)).1, true)

/-- Project::run_task_names (project.rs lines 140-180). -/
def run_task_names (fuel : Nat) (p : Project) (names : List String) :
    Option (List Action × Bool) :=
  resolveTasks p fuel (.names names)

/-- The member spawns of one matched group (run_names lines 198-208): each
member name that resolves to a component is spawned with the group env;
unknown member names are skipped. -/
def group_spawns (p : Project) (g : Group) : List (Component × Env) :=
  (g.components.filterMap p.find_component).map (fun c => (c, g.env))

/-- Project::run_names (project.rs lines 182-219): runs the task passes,
then spawns every name that is a component, then every member of every name
that is a group, calls Supervisor::init once when a component was spawned,
and answers Ok when a task ran or a component was spawned, otherwise the
error Nothing to run.  The result pairs the full action trace with the
returned Result. -/
def run_names (fuel : Nat) (p : Project) (names : List String) :
    Option (List Action × RustResult String) := do
  let (taskActs, task_running) ← run_task_names fuel p names
  let componentSpawns :=
    (names.filterMap p.find_component).map (fun c => Action.spawn c [])
  let groupSpawnList := names.flatMap (fun n =>
    match p.find_group n with
    | some g => group_spawns p g
    | none => [])
  let groupActs := groupSpawnList.map (fun ce => Action.spawn ce.1 ce.2)
  let cmp_running := !componentSpawns.isEmpty || !groupSpawnList.isEmpty
  let initActs := if cmp_running then [Action.init] else []
  let res : RustResult String :=
    if cmp_running || task_running then .ok else .err "Nothing to run"
  some (taskActs ++ componentSpawns ++ groupActs ++ initActs, res)

/-- A project task named x with a single command line. -/
def xTask : Task := ⟨"x", none, [], none, .single "echo hi", []⟩

/-- A component also named x. -/
def xComponent : Component :=
  ⟨"x", none, false, .yellow, [], [], none, none, "./run", [], [], false,
    true, []⟩

/-- A project in which the name x is both a project-level task and a
component. -/
def collisionProject : Project :=
  ⟨"P", [xComponent], [], [], [xTask], ".", []⟩

/-- A project whose only entry is a group named g with no members. -/
def emptyGroupProject : Project :=
  ⟨"P", [], [⟨"g", [], []⟩], [], [], ".", []⟩

/-- A project with one task named t and no components or groups. -/
def taskOnlyProject : Project :=
  ⟨"P", [], [], [], [⟨"t", none, [], none, .multiple ["a", "b"], []⟩], ".",
    []⟩

/-- One target name matches something run_names acts on: a project task, a
component-scoped task, a bare component, or a group at least one of whose
member names resolves to a component. -/
def name_matched (p : Project) (n : String) : Bool :=
  (p.find_project_task n).isSome || (p.find_component_task n).isSome ||
  (p.find_component n).isSome ||
  (match p.find_group n with
   | some g => g.components.any (fun m => (p.find_component m).isSome)
   | none => false)

/-- The bookkeeping the Supervisor keeps per spawned component
(supervisor.rs Worker, lines 328-336), restricted to the fields the event
loop reads; channel endpoints are not modelled. -/
structure WorkerR where
  component : Component
  extra_env : Env
  running : Bool
  completed : Bool
deriving DecidableEq, Repr

/-- The state Supervisor::init threads through its loop: the shared running
flag (the AtomicBool the ctrl-c handler stores false into) and the worker
registry. -/
structure SupState where
  running : Bool
  workers : List WorkerR
deriving DecidableEq, Repr

/-- The ctrl-c handler (supervisor.rs lines 199-212): store false in the
shared flag and mark every worker completed; the kill signals it also
sends carry no state the model tracks. -/
def ctrl_c_step (s : SupState) : SupState :=
  ⟨false, s.workers.map (fun w => ⟨w.component, w.extra_env, w.running, true⟩)⟩

/-- The worker record spawn_component registers (lines 93-104 and 188-189):
running and not completed. -/
def new_worker (c : Component) (extra_env : Env) : WorkerR :=
  ⟨c, extra_env, true, false⟩

/-- The ComponentShutdown branch of the event loop (lines 282-298) for the
worker at index i: when the component has retry set and the worker is not
completed, the component is re-spawned only if the shared flag still reads
true, pushing a new worker record; otherwise the worker is marked
completed.  Returns the new state and the component handed to
spawn_component, if any. -/
def shutdown_step (s : SupState) (i : Nat) : SupState × Option Component :=
  match s.workers[i]? with
  | none => (s, none)
  | some w =>
    if w.component.retry && !w.completed then
      if s.running then
        (⟨s.running, s.workers ++ [new_worker w.component w.extra_env]⟩,
          some w.component)
      else
        (s, none)
    else
      (⟨s.running,
          s.workers.set i ⟨w.component, w.extra_env, w.running, true⟩⟩,
        none)

/-- The closed or errored channel branch (lines 300-306): mark the worker
not running and completed. -/
def channel_closed_step (s : SupState) (i : Nat) : SupState :=
  match s.workers[i]? with
  | none => s
  | some w =>
    ⟨s.running, s.workers.set i ⟨w.component, w.extra_env, false, true⟩⟩

/-- The loop events that change supervisor state: the ctrl-c handler
firing between iterations, a ComponentShutdown event of worker i, a closed
worker channel.  Output, start, error and service-start events only render
text and are omitted. -/
inductive SupEvent where
  | ctrl_c
  | shutdown (i : Nat)
  | channel_closed (i : Nat)
deriving DecidableEq, Repr

/-- Running the event loop over a sequence of events: the final state and
every component handed to spawn_component along the way. -/
def sup_run (s : SupState) : List SupEvent → SupState × List Component
  | [] => (s, [])
  | .ctrl_c :: rest => sup_run (ctrl_c_step s) rest
  | .shutdown i :: rest =>
    ((sup_run (shutdown_step s i).1 rest).1,
      (shutdown_step s i).2.toList ++ (sup_run (shutdown_step s i).1 rest).2)
  | .channel_closed i :: rest => sup_run (channel_closed_step s i) rest

/-- The service shutdown after the event loop exits (supervisor.rs lines
310-324): the set of service names referenced by any registered worker (a
HashSet; dedup keeps one occurrence per name). -/
def referenced_service_names (workers : List WorkerR) : List String :=
  (workers.flatMap (fun w => w.component.services)).dedup

/-- The names whose stop is invoked: each distinct referenced name that
service_by_name resolves, once. -/
def service_shutdown_stops (p : Project) (workers : List WorkerR) :
    List String :=
  (referenced_service_names workers).filter
    (fun sn => (p.service_by_name sn).isSome)

/-- A docker service named db. -/
def dbService : Service := ⟨.dockerContainer, none, "db"⟩

/-- A project defining only the db service. -/
def serviceProject : Project := ⟨"P", [], [], [dbService], [], ".", []⟩

/-- A worker whose component references the db service. -/
def dbWorkerA : WorkerR :=
  ⟨⟨"a", none, false, .yellow, [], [], none, none, "", [], [], false, true,
    ["db"]⟩, [], true, true⟩

/-- A second worker whose component also references the db service. -/
def dbWorkerB : WorkerR :=
  ⟨⟨"b", none, false, .yellow, [], [], none, none, "", [], [], false, true,
    ["db"]⟩, [], true, true⟩

/-- The environment a spawned component's shell receives before expansion
(supervisor.rs lines 131-134): the inherited process environment extended
by the component env, extended by the call-site extra env. -/
def spawn_env (process_env component_env extra_env : Env) : Env :=
  extendEnv (extendEnv process_env component_env) extra_env

/-- The env var list handed to the Exec shell (lines 135-136): every merged
value undergoes environment variable expansion, abstracted by the expand
oracle. -/
def spawn_env_vars (expand : String → String)
    (process_env component_env extra_env : Env) : Env :=
  (spawn_env process_env component_env extra_env).map
    (fun kv => (kv.1, expand kv.2))

/-- Written from the claim's words, for comparison with the code: the
effective value of a key is the extra env's value if the key is present
there, else the component env's value if present there, else the process
environment's value. -/
def layered_value (process_env component_env extra_env : Env) (k : String) :
    Option String :=
  match lookupEnv extra_env k with
  | some v => some v
  | none =>
    match lookupEnv component_env k with
    | some v => some v
    | none => lookupEnv process_env k

/-- A filesystem or network effect of the setup path. -/
inductive FsEffect where
  | create_dir (path : String)
  | git_clone (url : String) (path : String)
deriving DecidableEq, Repr

/-- The error cases of the clone path; io error payloads are abstracted to
the data the code puts in the message. -/
inductive CloneError where
  | repo_not_specified
  | directory_exists (path : String)
  | create_dir_failed (path : String)
  | clone_failed (url : String)
deriving DecidableEq, Repr

/-- git::clone_repo (git.rs lines 9-19): refuse when the destination
exists, otherwise create the directory chain and clone into it.  Oracles:
path_exists models Path::exists, mkdir_ok whether fs::create_dir_all
succeeds, clone_ok whether the repo builder's clone succeeds.  The first
component lists the filesystem and network operations attempted, in
order. -/
def clone_repo_git (path_exists mkdir_ok : String → Bool)
    (clone_ok : String → String → Bool) (repo_url root_path : String) :
    List FsEffect × RustResult CloneError :=
  if path_exists root_path then
    ([], .err (.directory_exists root_path))
  else if mkdir_ok root_path then
    if clone_ok repo_url root_path then
      ([.create_dir root_path, .git_clone repo_url root_path], .ok)
    else
      ([.create_dir root_path, .git_clone repo_url root_path],
        .err (.clone_failed repo_url))
  else
    ([.create_dir root_path], .err (.create_dir_failed root_path))

/-- Component::clone_repo (component.rs lines 76-84): an error without any
effect when no repo is configured, otherwise git::clone_repo. -/
def Component.clone_repo (path_exists mkdir_ok : String → Bool)
    (clone_ok : String → String → Bool) (c : Component)
    (root_path : String) : List FsEffect × RustResult CloneError :=
  match c.repo with
  | some repo => clone_repo_git path_exists mkdir_ok clone_ok repo root_path
  | none => ([], .err .repo_not_specified)

theorem vecPop_nil {α : Type} : vecPop ([] : List α) = (none, []) := rfl

theorem vecPop_concat {α : Type} (l : List α) (x : α) :
    vecPop (l ++ [x]) = (some x, l) := by
  simp [vecPop, List.getLast?_concat, List.dropLast_concat]

theorem collectSteps_multiple (n : Nat) :
    ∀ l : List String, l.length ≤ n → collectSteps n (.multiple l) = l.reverse := by
  induction n with
  | zero =>
    intro l hl
    have : l = [] := List.eq_nil_of_length_eq_zero (Nat.le_zero.mp hl)
    subst this; rfl
  | succ n ih =>
    intro l hl
    rcases l.eq_nil_or_concat with h | ⟨l2, x, h⟩
    · subst h; rfl
    · subst h
      have hlen : l2.length ≤ n := by
        have := hl
        simp [List.length_append] at this
        omega
      simp [collectSteps, Commands.next, vecPop_concat, ih l2 hlen,
        List.reverse_append]

/-- Collecting a Multiple commands value yields the declared lines in
reverse order: Commands::next pops from the back of the Vec. -/
theorem commands_collect_multiple (l : List String) :
    Commands.collect (.multiple l) = l.reverse := by
  simpa [Commands.collect, Commands.size] using
    collectSteps_multiple l.length l (Nat.le_refl _)

/-- Collecting a Single commands value yields exactly that one line. -/
theorem commands_collect_single (s : String) :
    Commands.collect (.single s) = [s] := rfl

theorem firstMatch_find? {α : Type} (l : List α) (pred : α → Bool) :
    FirstMatch l pred (l.find? pred) := by
  induction l with
  | nil => exact ⟨by simp, by simp⟩
  | cons a l ih =>
    by_cases ha : pred a = true
    · refine ⟨by simp [List.find?, ha], ?_⟩
      intro x hx
      simp [List.find?, ha] at hx
      subst hx
      exact ⟨ha, [], l, by simp⟩
    · have ha2 : pred a = false := by
        cases h : pred a
        · rfl
        · exact absurd h ha
      refine ⟨?_, ?_⟩
      · rw [List.find?, ha2]
        simp only [Bool.false_eq_true, if_false]
        constructor
        · intro h x hx
          rcases List.mem_cons.mp hx with rfl | hmem
          · exact ha2
          · exact (ih.1.mp h) x hmem
        · intro h
          exact ih.1.mpr (fun x hx => h x (List.mem_cons_of_mem a hx))
      · intro x hx
        rw [List.find?, ha2] at hx
        simp only [Bool.false_eq_true, if_false] at hx
        obtain ⟨hp, l1, l2, heq, hfail⟩ := ih.2 x hx
        refine ⟨hp, a :: l1, l2, by simp [heq], ?_⟩
        intro y hy
        rcases List.mem_cons.mp hy with rfl | hmem
        · exact ha2
        · exact hfail y hmem

theorem service_by_name_eq_find (p : Project) (q : String) :
    p.service_by_name q =
      p.services.find? (fun s => lowercase s.name == lowercase q) := by
  unfold Project.service_by_name
  cases p.services.find? (fun s => lowercase s.name == lowercase q) <;> rfl

/-- C8: for every project and query, find_component, find_group,
find_project_task and service_by_name each return the first element in
declaration order whose name matches the query case-insensitively, and
return none exactly when no element matches; with duplicate names the first
declared element wins. -/
theorem lookups_first_match (p : Project) (q : String) :
    FirstMatch p.components (fun c => lowercase c.name == lowercase q)
      (p.find_component q) ∧
    FirstMatch p.groups (fun g => lowercase g.name == lowercase q)
      (p.find_group q) ∧
    FirstMatch p.tasks (fun t => lowercase t.name == lowercase q)
      (p.find_project_task q) ∧
    FirstMatch p.services (fun s => lowercase s.name == lowercase q)
      (p.service_by_name q) := by
  refine ⟨firstMatch_find? _ _, firstMatch_find? _ _, firstMatch_find? _ _, ?_⟩
  rw [service_by_name_eq_find]
  exact firstMatch_find? _ _

theorem launcherSteps_spec (startOk : Service → Bool) (n : Nat) :
    ∀ l : List Service, l.length ≤ n →
      launcherSteps startOk n ⟨l⟩ =
        (l.reverse.map (fun s => if startOk s then .ok s else .err s),
          l.reverse) := by
  induction n with
  | zero =>
    intro l hl
    have : l = [] := List.eq_nil_of_length_eq_zero (Nat.le_zero.mp hl)
    subst this; rfl
  | succ n ih =>
    intro l hl
    rcases l.eq_nil_or_concat with h | ⟨l2, x, h⟩
    · subst h; rfl
    · subst h
      have hlen : l2.length ≤ n := by
        have := hl
        simp [List.length_append] at this
        omega
      simp [launcherSteps, ServiceLauncher.next, vecPop_concat, ih l2 hlen,
        List.reverse_append]

theorem terminatorSteps_spec (stopOk : Service → Bool) (n : Nat) :
    ∀ l : List Service, l.length ≤ n →
      terminatorSteps stopOk n ⟨l⟩ =
        (l.reverse.map (fun s => if stopOk s then .ok s else .err s),
          l.reverse) := by
  induction n with
  | zero =>
    intro l hl
    have : l = [] := List.eq_nil_of_length_eq_zero (Nat.le_zero.mp hl)
    subst this; rfl
  | succ n ih =>
    intro l hl
    rcases l.eq_nil_or_concat with h | ⟨l2, x, h⟩
    · subst h; rfl
    · subst h
      have hlen : l2.length ≤ n := by
        have := hl
        simp [List.length_append] at this
        omega
      simp [terminatorSteps, ServiceTerminator.next, vecPop_concat,
        ih l2 hlen, List.reverse_append]

theorem launcher_drain_spec (startOk : Service → Bool) (l : List Service) :
    ServiceLauncher.drain startOk ⟨l⟩ =
      (l.reverse.map (fun s => if startOk s then .ok s else .err s),
        l.reverse) :=
  launcherSteps_spec startOk l.length l (Nat.le_refl _)

theorem terminator_drain_spec (stopOk : Service → Bool) (l : List Service) :
    ServiceTerminator.drain stopOk ⟨l⟩ =
      (l.reverse.map (fun s => if stopOk s then .ok s else .err s),
        l.reverse) :=
  terminatorSteps_spec stopOk l.length l (Nat.le_refl _)

/-- C9: draining a ServiceLauncher or ServiceTerminator over n services
yields exactly n items, one Result per service; every service is attempted
even when other services fail (an err item never ends the iteration); and
each single next call performs exactly the one popped service's start or
stop, so the operation happens only when its item is pulled. -/
theorem service_iterators_attempt_every_service (startOk stopOk : Service → Bool)
    (l : List Service) (s : Service) :
    ((ServiceLauncher.drain startOk ⟨l⟩).1.length = l.length ∧
      (ServiceTerminator.drain stopOk ⟨l⟩).1.length = l.length) ∧
    (s ∈ l →
      (if startOk s then ServiceResult.ok s else ServiceResult.err s) ∈
          (ServiceLauncher.drain startOk ⟨l⟩).1 ∧
        s ∈ (ServiceLauncher.drain startOk ⟨l⟩).2 ∧
      (if stopOk s then ServiceResult.ok s else ServiceResult.err s) ∈
          (ServiceTerminator.drain stopOk ⟨l⟩).1 ∧
        s ∈ (ServiceTerminator.drain stopOk ⟨l⟩).2) ∧
    (ServiceLauncher.next startOk ⟨l ++ [s]⟩ =
        (some (if startOk s then .ok s else .err s), ⟨l⟩, [s]) ∧
      ServiceTerminator.next stopOk ⟨l ++ [s]⟩ =
        (some (if stopOk s then .ok s else .err s), ⟨l⟩, [s])) := by
  refine ⟨⟨?_, ?_⟩, ?_, ?_, ?_⟩
  · simp [launcher_drain_spec]
  · simp [terminator_drain_spec]
  · intro hs
    have hrev : s ∈ l.reverse := List.mem_reverse.mpr hs
    refine ⟨?_, ?_, ?_, ?_⟩
    · rw [launcher_drain_spec]
      exact List.mem_map_of_mem _ hrev
    · rw [launcher_drain_spec]
      exact hrev
    · rw [terminator_drain_spec]
      exact List.mem_map_of_mem _ hrev
    · rw [terminator_drain_spec]
      exact hrev
  · simp [ServiceLauncher.next, vecPop_concat]
  · simp [ServiceTerminator.next, vecPop_concat]

theorem projectPass_some (p : Project) (f : Nat) (ts : List Task)
    (a : List Action) (r : Bool)
    (h : resolveTasks p f (.projectPass ts) = some (a, r)) :
    r = !ts.isEmpty ∧ (ts = [] → a = []) := by
  cases f with
  | zero => simp [resolveTasks] at h
  | succ f =>
    cases ts with
    | nil =>
      simp [resolveTasks] at h
      exact ⟨by simp [h.2], fun _ => h.1⟩
    | cons t rest =>
      rw [resolveTasks] at h
      simp only [Option.bind_eq_bind, Option.bind_eq_some] at h
      obtain ⟨⟨a1, r1⟩, h1, ⟨a2, r2⟩, h2, h3⟩ := h
      simp only [Option.some.injEq, Prod.mk.injEq] at h3
      exact ⟨by simp [← h3.2], by simp⟩

theorem componentPass_some (p : Project) :
    ∀ (f : Nat) (ns : List String) (a : List Action) (r : Bool),
      resolveTasks p f (.componentPass ns) = some (a, r) →
      r = ns.any (fun n => (p.find_component_task n).isSome) ∧
        (r = false → a = []) := by
  intro f
  induction f with
  | zero => intro ns a r h; simp [resolveTasks] at h
  | succ f ih =>
    intro ns a r h
    cases ns with
    | nil =>
      simp [resolveTasks] at h
      exact ⟨by simp [h.2], fun _ => h.1⟩
    | cons n rest =>
      rw [resolveTasks] at h
      cases hct : p.find_component_task n with
      | none =>
        rw [hct] at h
        have := ih rest a r h
        simpa [List.any_cons, hct] using this
      | some ct =>
        obtain ⟨c, t⟩ := ct
        rw [hct] at h
        simp only [Option.bind_eq_bind, Option.bind_eq_some] at h
        obtain ⟨⟨a1, r1⟩, h1, ⟨a2, r2⟩, h2, h3⟩ := h
        simp only [Option.some.injEq, Prod.mk.injEq] at h3
        exact ⟨by simp [List.any_cons, hct, ← h3.2], by simp [← h3.2]⟩

theorem names_some (p : Project) (f : Nat) (ns : List String)
    (a : List Action) (r : Bool)
    (h : resolveTasks p f (.names ns) = some (a, r)) :
    r = (!(ns.filterMap p.find_project_task).isEmpty ||
        ns.any (fun n => (p.find_component_task n).isSome)) ∧
      (r = false → a = []) := by
  cases f with
  | zero => simp [resolveTasks] at h
  | succ f =>
    rw [resolveTasks] at h
    simp only [Option.bind_eq_bind, Option.bind_eq_some] at h
    obtain ⟨⟨a1, r1⟩, h1, ⟨a2, r2⟩, h2, h3⟩ := h
    simp only [Option.some.injEq, Prod.mk.injEq] at h3
    obtain ⟨hp1, hp2⟩ := projectPass_some p f _ a1 r1 h1
    obtain ⟨hc1, hc2⟩ := componentPass_some p f _ a2 r2 h2
    constructor
    · rw [← h3.2, hp1, hc1]
    · intro hr
      rw [← h3.2] at hr
      have hr1 : r1 = false := by
        cases hb : r1
        · rfl
        · rw [hb] at hr; simp at hr
      have hr2 : r2 = false := by
        cases hb : r2
        · rfl
        · rw [hb] at hr; simp at hr
      have ha1 : a1 = [] := by
        apply hp2
        rw [hr1] at hp1
        have := hp1.symm
        simpa [List.isEmpty_iff] using this
      have ha2 : a2 = [] := hc2 hr2
      rw [← h3.1, ha1, ha2]
      rfl

theorem resolveTasks_no_init (p : Project) :
    ∀ (f : Nat) (call : ResolveCall) (a : List Action) (r : Bool),
      resolveTasks p f call = some (a, r) → Action.init ∉ a := by
  intro f
  induction f with
  | zero => intro call a r h; simp [resolveTasks] at h
  | succ f ih =>
    intro call a r h
    cases call with
    | names ns =>
      rw [resolveTasks] at h
      simp only [Option.bind_eq_bind, Option.bind_eq_some] at h
      obtain ⟨⟨a1, r1⟩, h1, ⟨a2, r2⟩, h2, h3⟩ := h
      simp only [Option.some.injEq, Prod.mk.injEq] at h3
      rw [← h3.1]
      intro hmem
      rcases List.mem_append.mp hmem with hm | hm
      · exact ih _ a1 r1 h1 hm
      · exact ih _ a2 r2 h2 hm
    | projectPass ts =>
      cases ts with
      | nil =>
        simp [resolveTasks] at h
        simp [h.1]
      | cons t rest =>
        rw [resolveTasks] at h
        simp only [Option.bind_eq_bind, Option.bind_eq_some] at h
        obtain ⟨⟨a1, r1⟩, h1, ⟨a2, r2⟩, h2, h3⟩ := h
        simp only [Option.some.injEq, Prod.mk.injEq] at h3
        rw [← h3.1]
        intro hmem
        rcases List.mem_append.mp hmem with hm | hm
        · exact ih _ a1 r1 h1 hm
        · exact ih _ a2 r2 h2 hm
    | componentPass ns =>
      cases ns with
      | nil =>
        simp [resolveTasks] at h
        simp [h.1]
      | cons n rest =>
        rw [resolveTasks] at h
        cases hct : p.find_component_task n with
        | none =>
          rw [hct] at h
          exact ih _ a r h
        | some ct =>
          obtain ⟨c, t⟩ := ct
          rw [hct] at h
          simp only [Option.bind_eq_bind, Option.bind_eq_some] at h
          obtain ⟨⟨a1, r1⟩, h1, ⟨a2, r2⟩, h2, h3⟩ := h
          simp only [Option.some.injEq, Prod.mk.injEq] at h3
          rw [← h3.1]
          intro hmem
          simp only [List.mem_append] at hmem
          rcases hmem with ((hm | hm) | hm) | hm
          · simp [service_start_attempts] at hm
          · exact ih _ a1 r1 h1 hm
          · simp [service_stop_attempts] at hm
          · exact ih _ a2 r2 h2 hm
    | ptask t =>
      rw [resolveTasks] at h
      simp only [Option.bind_eq_bind, Option.bind_eq_some] at h
      obtain ⟨⟨a1, r1⟩, h1, h2⟩ := h
      simp only [Option.some.injEq, Prod.mk.injEq] at h2
      rw [← h2.1]
      intro hmem
      rcases List.mem_append.mp hmem with hm | hm
      · exact ih _ a1 r1 h1 hm
      · simp [Supervisor.run] at hm
    | ctask c t =>
      rw [resolveTasks] at h
      simp only [Option.bind_eq_bind, Option.bind_eq_some] at h
      obtain ⟨⟨a1, r1⟩, h1, h2⟩ := h
      simp only [Option.some.injEq, Prod.mk.injEq] at h2
      rw [← h2.1]
      intro hmem
      rcases List.mem_append.mp hmem with hm | hm
      · exact ih _ a1 r1 h1 hm
      · simp [Supervisor.run] at hm

theorem bool_not_true (b : Bool) (h : (!b) = true) : b = false := by
  simp at h; exact h

theorem bool_not_false (b : Bool) (h : (!b) = false) : b = true := by
  simp at h; exact h

theorem opt_isSome_false {α : Type} (o : Option α) (h : o.isSome = false) :
    o = none := by
  simp at h; exact h

theorem any_false_at {α : Type} (l : List α) (q : α → Bool) (x : α)
    (h : l.any q = false) (hx : x ∈ l) : q x = false := by
  cases hq : q x with
  | false => rfl
  | true =>
    rw [List.any_eq_true.mpr ⟨x, hx, hq⟩] at h
    cases h

theorem name_matched_false_iff (p : Project) (n : String) :
    name_matched p n = false ↔
      (p.find_project_task n = none ∧
        (p.find_component_task n).isSome = false ∧
        p.find_component n = none ∧
        (match p.find_group n with
          | some g => group_spawns p g
          | none => []) = []) := by
  unfold name_matched
  simp only [Bool.or_eq_false_iff]
  constructor
  · rintro ⟨⟨⟨h1, h2⟩, h3⟩, h4⟩
    refine ⟨opt_isSome_false _ h1, h2, opt_isSome_false _ h3, ?_⟩
    cases hg : p.find_group n with
    | none => rfl
    | some g =>
      rw [hg] at h4
      simp only [group_spawns, List.map_eq_nil_iff, List.filterMap_eq_nil_iff]
      intro m hm
      exact opt_isSome_false _ (any_false_at _ _ m h4 hm)
  · rintro ⟨h1, h2, h3, h4⟩
    refine ⟨⟨⟨by simp [h1], h2⟩, by simp [h3]⟩, ?_⟩
    cases hg : p.find_group n with
    | none => rfl
    | some g =>
      rw [hg] at h4
      simp only [group_spawns, List.map_eq_nil_iff,
        List.filterMap_eq_nil_iff] at h4
      cases hany : g.components.any (fun m => (p.find_component m).isSome) with
      | false => simpa using hany
      | true =>
        obtain ⟨m, hm, hsome⟩ := List.any_eq_true.mp hany
        rw [h4 m hm] at hsome
        cases hsome

theorem run_names_inversion (fuel : Nat) (p : Project) (names : List String)
    (plan : List Action) (res : RustResult String)
    (h : run_names fuel p names = some (plan, res)) :
    ∃ ta tr, run_task_names fuel p names = some (ta, tr) ∧
      plan = ta ++
        (names.filterMap p.find_component).map (fun c => Action.spawn c []) ++
        (names.flatMap (fun n =>
          match p.find_group n with
          | some g => group_spawns p g
          | none => [])).map (fun ce => Action.spawn ce.1 ce.2) ++
        (if (!((names.filterMap p.find_component).map
              (fun c => Action.spawn c [])).isEmpty ||
            !(names.flatMap (fun n =>
              match p.find_group n with
              | some g => group_spawns p g
              | none => [])).isEmpty) then [Action.init] else []) ∧
      res = (if ((!((names.filterMap p.find_component).map
              (fun c => Action.spawn c [])).isEmpty ||
            !(names.flatMap (fun n =>
              match p.find_group n with
              | some g => group_spawns p g
              | none => [])).isEmpty) || tr) then RustResult.ok
          else .err "Nothing to run") := by
  rw [run_names] at h
  simp only [Option.bind_eq_bind, Option.bind_eq_some] at h
  obtain ⟨⟨ta, tr⟩, hta, h2⟩ := h
  simp only [Option.some.injEq, Prod.mk.injEq] at h2
  exact ⟨ta, tr, hta, h2.1.symm, h2.2.symm⟩

/-- C3 (amended): Project::run_names answers Ok exactly when at least one
target name matched a project task, a component-scoped task, a bare
component, or a group at least one of whose member names resolves to a
component; a name matching only a group with no resolvable members counts
as unmatched.  Otherwise the error Nothing to run is returned, and in that
case the trace is empty: no component was spawned and no task command ran. -/
theorem run_names_result_contract (fuel : Nat) (p : Project)
    (names : List String) (plan : List Action) (res : RustResult String)
    (h : run_names fuel p names = some (plan, res)) :
    (res = .err "Nothing to run" ↔
      names.all (fun n => !name_matched p n) = true) ∧
    (res = .err "Nothing to run" → plan = []) := by
  obtain ⟨ta, tr, hta, hplan, hres⟩ := run_names_inversion fuel p names plan res h
  rw [run_task_names] at hta
  obtain ⟨htr, hempty⟩ := names_some p fuel names ta tr hta
  constructor
  · constructor
    · intro herr
      rw [herr] at hres
      by_cases hcond : ((!((names.filterMap p.find_component).map
            (fun c => Action.spawn c [])).isEmpty ||
          !(names.flatMap (fun n =>
            match p.find_group n with
            | some g => group_spawns p g
            | none => [])).isEmpty) || tr) = true
      · rw [if_pos hcond] at hres
        exact RustResult.noConfusion hres
      · have hcond2 := Bool.eq_false_iff.mpr hcond
        simp only [Bool.or_eq_false_iff] at hcond2
        obtain ⟨⟨hcs, hgl⟩, htrf⟩ := hcond2
        rw [htrf] at htr
        have htr2 := htr.symm
        simp only [Bool.or_eq_false_iff] at htr2
        obtain ⟨hA, hB⟩ := htr2
        have hA2 : (names.filterMap p.find_project_task) = [] :=
          List.isEmpty_iff.mp (bool_not_false _ hA)
        have hcs2 : (names.filterMap p.find_component) = [] :=
          List.map_eq_nil_iff.mp (List.isEmpty_iff.mp (bool_not_false _ hcs))
        have hgl2 := List.isEmpty_iff.mp (bool_not_false _ hgl)
        rw [List.all_eq_true]
        intro n hn
        have hm : name_matched p n = false := by
          rw [name_matched_false_iff]
          refine ⟨?_, ?_, ?_, ?_⟩
          · exact List.filterMap_eq_nil_iff.mp hA2 n hn
          · exact any_false_at _ _ n hB hn
          · exact List.filterMap_eq_nil_iff.mp hcs2 n hn
          · exact List.flatMap_eq_nil_iff.mp hgl2 n hn
        simp [hm]
    · intro hall
      have hptwise : ∀ n ∈ names, name_matched p n = false := by
        intro n hn
        exact bool_not_true _ (List.all_eq_true.mp hall n hn)
      have hA : (names.filterMap p.find_project_task) = [] := by
        rw [List.filterMap_eq_nil_iff]
        intro n hn
        exact ((name_matched_false_iff p n).mp (hptwise n hn)).1
      have hB : names.any (fun n => (p.find_component_task n).isSome) = false := by
        cases hany : names.any (fun n => (p.find_component_task n).isSome) with
        | false => rfl
        | true =>
          obtain ⟨n, hn, hsome⟩ := List.any_eq_true.mp hany
          rw [((name_matched_false_iff p n).mp (hptwise n hn)).2.1] at hsome
          cases hsome
      have hC : (names.filterMap p.find_component) = [] := by
        rw [List.filterMap_eq_nil_iff]
        intro n hn
        exact ((name_matched_false_iff p n).mp (hptwise n hn)).2.2.1
      have hD : (names.flatMap (fun n =>
          match p.find_group n with
          | some g => group_spawns p g
          | none => [])) = [] := by
        rw [List.flatMap_eq_nil_iff]
        intro n hn
        exact ((name_matched_false_iff p n).mp (hptwise n hn)).2.2.2
      have htrf : tr = false := by
        rw [htr, hA, hB]
        rfl
      rw [hres, hC, hD, htrf]
      rfl
  · intro herr
    rw [herr] at hres
    by_cases hcond : ((!((names.filterMap p.find_component).map
          (fun c => Action.spawn c [])).isEmpty ||
        !(names.flatMap (fun n =>
          match p.find_group n with
          | some g => group_spawns p g
          | none => [])).isEmpty) || tr) = true
    · rw [if_pos hcond] at hres
      exact RustResult.noConfusion hres
    · have hcond2 := Bool.eq_false_iff.mpr hcond
      simp only [Bool.or_eq_false_iff] at hcond2
      obtain ⟨⟨hcs, hgl⟩, htrf⟩ := hcond2
      have hta2 : ta = [] := hempty htrf
      have hcs2 := List.isEmpty_iff.mp (bool_not_false _ hcs)
      have hgl2 := List.isEmpty_iff.mp (bool_not_false _ hgl)
      rw [hplan, hta2, hcs2, hgl2]
      simp

/-- C3 as frozen fails on the code: in emptyGroupProject the name g does
resolve to a group, yet run_names returns the error Nothing to run, because
a group none of whose members resolves to a component sets no flag. -/
theorem run_names_empty_group_nothing_to_run :
    (emptyGroupProject.find_group "g").isSome = true ∧
    run_names 5 emptyGroupProject ["g"] =
      some ([], .err "Nothing to run") := by
  constructor
  · rfl
  · rfl

/-- Witness for run_names_result_contract: a run over taskOnlyProject with
the single matching task name t answers Ok with a nonempty trace. -/
theorem run_names_result_contract_witness :
    ((RustResult.ok : RustResult String) = .err "Nothing to run" ↔
      List.all ["t"] (fun n => !name_matched taskOnlyProject n) = true) ∧
    ((RustResult.ok : RustResult String) = .err "Nothing to run" →
      [Action.task_line "t" "b", Action.task_line "t" "a"] = []) :=
  run_names_result_contract 5 taskOnlyProject ["t"]
    [Action.task_line "t" "b", Action.task_line "t" "a"] .ok (by rfl)

/-- C7: when at least one target name matches a task, project-level or
component-scoped, and no target name matches a bare component or a group,
run_names returns Ok and its trace contains no Supervisor::init call. -/
theorem task_only_run_no_init (fuel : Nat) (p : Project)
    (names : List String) (plan : List Action) (res : RustResult String)
    (h : run_names fuel p names = some (plan, res))
    (htask : names.any (fun n => (p.find_project_task n).isSome ||
      (p.find_component_task n).isSome) = true)
    (hnone : names.all (fun n => (p.find_component n).isNone &&
      (p.find_group n).isNone) = true) :
    res = .ok ∧ Action.init ∉ plan := by
  obtain ⟨ta, tr, hta, hplan, hres⟩ := run_names_inversion fuel p names plan res h
  rw [run_task_names] at hta
  obtain ⟨htr, hem⟩ := names_some p fuel names ta tr hta
  have hC : (names.filterMap p.find_component) = [] := by
    rw [List.filterMap_eq_nil_iff]
    intro n hn
    have hx := List.all_eq_true.mp hnone n hn
    rw [Bool.and_eq_true] at hx
    exact Option.isNone_iff_eq_none.mp hx.1
  have hD : (names.flatMap (fun n =>
      match p.find_group n with
      | some g => group_spawns p g
      | none => [])) = [] := by
    rw [List.flatMap_eq_nil_iff]
    intro n hn
    have hx := List.all_eq_true.mp hnone n hn
    rw [Bool.and_eq_true] at hx
    have hgn : p.find_group n = none := Option.isNone_iff_eq_none.mp hx.2
    simp [hgn]
  have htrT : tr = true := by
    obtain ⟨n, hn, hor⟩ := List.any_eq_true.mp htask
    rcases Bool.or_eq_true_iff.mp hor with hp | hc
    · obtain ⟨t, ht⟩ := Option.isSome_iff_exists.mp hp
      have hmem : t ∈ names.filterMap p.find_project_task :=
        List.mem_filterMap.mpr ⟨n, hn, ht⟩
      have hne : names.filterMap p.find_project_task ≠ [] :=
        List.ne_nil_of_mem hmem
      have hie : (names.filterMap p.find_project_task).isEmpty = false := by
        cases hie2 : (names.filterMap p.find_project_task).isEmpty with
        | false => rfl
        | true => exact absurd (List.isEmpty_iff.mp hie2) hne
      rw [htr, hie]
      rfl
    · have hany : names.any (fun m => (p.find_component_task m).isSome) = true :=
        List.any_eq_true.mpr ⟨n, hn, hc⟩
      rw [htr, hany]
      simp
  have hplan2 : plan = ta := by
    rw [hplan, hC, hD]
    simp
  constructor
  · rw [hres, htrT]
    simp
  · rw [hplan2]
    exact resolveTasks_no_init p fuel _ ta tr hta

/-- Witness for task_only_run_no_init: running taskOnlyProject with the
single task name t gives Ok and a trace without init. -/
theorem task_only_run_no_init_witness :
    (RustResult.ok : RustResult String) = .ok ∧
      Action.init ∉ [Action.task_line "t" "b", Action.task_line "t" "a"] :=
  task_only_run_no_init 5 taskOnlyProject ["t"]
    [Action.task_line "t" "b", Action.task_line "t" "a"] .ok (by rfl)
    (by rfl) (by rfl)

/-- C1 (amended): the four resolution categories are not exclusive; an
earlier match does not suppress later categories.  Every target name that
resolves to a component is spawned even if it also matched a task, and
every resolvable member of every group the name matches is spawned with
the group env, the phases running in order tasks, component spawns, group
spawns. -/
theorem run_names_executes_every_matching_category (fuel : Nat)
    (p : Project) (names : List String) (plan : List Action)
    (res : RustResult String) (n : String)
    (h : run_names fuel p names = some (plan, res)) (hn : n ∈ names) :
    (∀ c, p.find_component n = some c → Action.spawn c [] ∈ plan) ∧
    (∀ g m cm, p.find_group n = some g → m ∈ g.components →
      p.find_component m = some cm → Action.spawn cm g.env ∈ plan) := by
  obtain ⟨ta, tr, hta, hplan, hres⟩ := run_names_inversion fuel p names plan res h
  constructor
  · intro c hc
    rw [hplan]
    have h1 : c ∈ names.filterMap p.find_component :=
      List.mem_filterMap.mpr ⟨n, hn, hc⟩
    have h2 : Action.spawn c [] ∈
        (names.filterMap p.find_component).map (fun c => Action.spawn c []) :=
      List.mem_map_of_mem _ h1
    simp only [List.mem_append]
    exact Or.inl (Or.inl (Or.inr h2))
  · intro g m cm hg hm hcm
    rw [hplan]
    have h1 : (cm, g.env) ∈ group_spawns p g := by
      have := List.mem_map_of_mem (fun c => (c, g.env))
        (List.mem_filterMap.mpr ⟨m, hm, hcm⟩)
      simpa [group_spawns] using this
    have h2 : (cm, g.env) ∈ names.flatMap (fun n =>
        match p.find_group n with
        | some g => group_spawns p g
        | none => []) := by
      apply List.mem_flatMap.mpr
      refine ⟨n, hn, ?_⟩
      rw [hg]
      exact h1
    have h3 : Action.spawn cm g.env ∈ (names.flatMap (fun n =>
        match p.find_group n with
        | some g => group_spawns p g
        | none => [])).map (fun ce => Action.spawn ce.1 ce.2) := by
      have := List.mem_map_of_mem (fun ce => Action.spawn ce.1 ce.2) h2
      simpa using this
    simp only [List.mem_append]
    exact Or.inl (Or.inr h3)

/-- C1 as frozen fails on the code: in collisionProject the single target
name x matches both the project-level task x (category a) and the bare
component x (category c), and run_names executes both: the task command
runs and the component is spawned. -/
theorem run_names_task_and_component_both_run :
    (collisionProject.find_project_task "x").isSome = true ∧
    (collisionProject.find_component "x").isSome = true ∧
    run_names 5 collisionProject ["x"] =
      some ([Action.task_line "x" "echo hi", Action.spawn xComponent [],
        Action.init], .ok) :=
  ⟨rfl, rfl, rfl⟩

/-- Witness for run_names_executes_every_matching_category at
collisionProject with the doubly-matching name x. -/
theorem run_names_executes_every_matching_category_witness :
    (∀ c, collisionProject.find_component "x" = some c →
      Action.spawn c [] ∈ [Action.task_line "x" "echo hi",
        Action.spawn xComponent [], Action.init]) ∧
    (∀ g m cm, collisionProject.find_group "x" = some g →
      m ∈ g.components → collisionProject.find_component m = some cm →
      Action.spawn cm g.env ∈ [Action.task_line "x" "echo hi",
        Action.spawn xComponent [], Action.init]) :=
  run_names_executes_every_matching_category 5 collisionProject ["x"]
    [Action.task_line "x" "echo hi", Action.spawn xComponent [], Action.init]
    .ok "x" (by rfl) (by decide)

/-- C2 is a code bug: iterating the Commands value of a task whose
declared command list is a then b yields b then a, because Commands::next
pops from the back of the Vec, so the conversion to Vec of String reverses
the declared order; only the single-string form keeps its one command.
The general reversal law is proved alongside the concrete failing input. -/
theorem commands_iteration_reverses_declared_order :
    Commands.collect (.multiple ["a", "b"]) = ["b", "a"] ∧
    Commands.collect (.multiple ["a", "b"]) ≠ ["a", "b"] ∧
    (∀ l : List String, Commands.collect (.multiple l) = l.reverse) ∧
    (∀ s : String, Commands.collect (.single s) = [s]) :=
  ⟨rfl, by decide, commands_collect_multiple, commands_collect_single⟩

theorem shutdown_step_no_spawn (s : SupState) (i : Nat)
    (hs : s.running = false) :
    (shutdown_step s i).2 = none ∧ (shutdown_step s i).1.running = false := by
  cases hw : s.workers[i]? with
  | none => simp [shutdown_step, hw, hs]
  | some w =>
    by_cases hr : (w.component.retry && !w.completed) = true
    · simp [shutdown_step, hw, hr, hs]
    · simp [shutdown_step, hw, hr, hs]

theorem channel_closed_step_flag (s : SupState) (i : Nat)
    (hs : s.running = false) : (channel_closed_step s i).running = false := by
  cases hw : s.workers[i]? with
  | none => simp [channel_closed_step, hw, hs]
  | some w => simp [channel_closed_step, hw, hs]

theorem sup_run_flag_false (evs : List SupEvent) :
    ∀ s : SupState, s.running = false →
      (sup_run s evs).2 = [] ∧ (sup_run s evs).1.running = false := by
  induction evs with
  | nil => intro s hs; exact ⟨rfl, hs⟩
  | cons e rest ih =>
    intro s hs
    cases e with
    | ctrl_c =>
      have hflag : (ctrl_c_step s).running = false := rfl
      simpa [sup_run] using ih _ hflag
    | shutdown i =>
      obtain ⟨h1, h2⟩ := shutdown_step_no_spawn s i hs
      obtain ⟨ih1, ih2⟩ := ih _ h2
      constructor
      · show (shutdown_step s i).2.toList ++
          (sup_run (shutdown_step s i).1 rest).2 = []
        rw [h1, ih1]
        rfl
      · show (sup_run (shutdown_step s i).1 rest).1.running = false
        exact ih2
    | channel_closed i =>
      have hflag := channel_closed_step_flag s i hs
      simpa [sup_run] using ih _ hflag

/-- C4: once the ctrl-c handler has run (storing false in the shared flag
and marking every worker completed), the event loop never calls
spawn_component again: whatever events follow, including shutdown events
of workers whose components have retry set, no component is spawned and
the flag stays false. -/
theorem no_respawn_after_cancellation (s : SupState) (evs : List SupEvent) :
    (ctrl_c_step s).running = false ∧
    (sup_run (ctrl_c_step s) evs).2 = [] ∧
    (sup_run (ctrl_c_step s) evs).1.running = false :=
  ⟨rfl, (sup_run_flag_false evs _ rfl).1, (sup_run_flag_false evs _ rfl).2⟩

/-- C5: after the event loop exits, each distinct service name referenced
by any worker registered during the run and naming a service of the
project has its stop invoked exactly once, even when several components
share it. -/
theorem services_stopped_exactly_once (p : Project) (workers : List WorkerR)
    (sn : String)
    (href : sn ∈ workers.flatMap (fun w => w.component.services))
    (hres : (p.service_by_name sn).isSome = true) :
    (service_shutdown_stops p workers).count sn = 1 := by
  have hnd : (referenced_service_names workers).Nodup := List.nodup_dedup _
  have hnd2 : (service_shutdown_stops p workers).Nodup := hnd.filter _
  have hmem : sn ∈ service_shutdown_stops p workers :=
    List.mem_filter.mpr ⟨List.mem_dedup.mpr href, hres⟩
  exact List.count_eq_one_of_mem hnd2 hmem

/-- Witness for services_stopped_exactly_once: two workers share the
service name db and its stop is invoked once. -/
theorem services_stopped_exactly_once_witness :
    (service_shutdown_stops serviceProject [dbWorkerA, dbWorkerB]).count "db"
      = 1 :=
  services_stopped_exactly_once serviceProject [dbWorkerA, dbWorkerB] "db"
    (by decide) (by decide)

theorem lookupEnv_append (a b : Env) (k : String) :
    lookupEnv (a ++ b) k =
      match lookupEnv a k with
      | some v => some v
      | none => lookupEnv b k := by
  induction a with
  | nil => simp [lookupEnv]
  | cons kv rest ih =>
    by_cases hk : (kv.1 == k) = true
    · simp [lookupEnv, List.find?, hk]
    · have hk2 : (kv.1 == k) = false := Bool.eq_false_iff.mpr hk
      simp only [List.cons_append, lookupEnv, List.find?, hk2] at ih ⊢
      exact ih

theorem lookupEnv_map_expand (expand : String → String) (e : Env)
    (k : String) :
    lookupEnv (e.map (fun kv => (kv.1, expand kv.2))) k =
      (lookupEnv e k).map expand := by
  induction e with
  | nil => rfl
  | cons kv rest ih =>
    by_cases hk : (kv.1 == k) = true
    · simp [lookupEnv, List.find?, hk]
    · have hk2 : (kv.1 == k) = false := Bool.eq_false_iff.mpr hk
      simp only [List.map_cons, lookupEnv, List.find?, hk2] at ih ⊢
      exact ih

/-- C6: for every key, the value the spawned child process receives is the
expansion of the call-site extra env's value when the key is present
there, else of the component env's value when present there, else of the
inherited process environment's value: extra env overrides component env,
which overrides the process environment. -/
theorem spawn_env_layering (expand : String → String)
    (process_env component_env extra_env : Env) (k : String) :
    lookupEnv (spawn_env_vars expand process_env component_env extra_env) k =
      (layered_value process_env component_env extra_env k).map expand := by
  unfold spawn_env_vars spawn_env extendEnv layered_value
  rw [lookupEnv_map_expand, lookupEnv_append, lookupEnv_append]

/-- C10: Component::clone_repo returns an error without performing any
clone or filesystem change when no repo is configured; returns an error
without cloning or creating directories whenever the destination already
exists; and a clone is attempted only when a repo is set and the
destination does not yet exist. -/
theorem clone_repo_guards (path_exists mkdir_ok : String → Bool)
    (clone_ok : String → String → Bool) (c : Component) (rp u : String) :
    (c.repo = none →
      Component.clone_repo path_exists mkdir_ok clone_ok c rp =
        ([], .err .repo_not_specified)) ∧
    (path_exists rp = true → ∀ r, c.repo = some r →
      Component.clone_repo path_exists mkdir_ok clone_ok c rp =
        ([], .err (.directory_exists rp))) ∧
    (FsEffect.git_clone u rp ∈
        (Component.clone_repo path_exists mkdir_ok clone_ok c rp).1 →
      c.repo = some u ∧ path_exists rp = false) := by
  refine ⟨?_, ?_, ?_⟩
  · intro h
    unfold Component.clone_repo
    rw [h]
  · intro hex r hr
    simp only [Component.clone_repo, hr]
    simp [clone_repo_git, hex]
  · intro hmem
    cases hr : c.repo with
    | none =>
      simp only [Component.clone_repo, hr] at hmem
      simp at hmem
    | some r =>
      simp only [Component.clone_repo, hr] at hmem
      unfold clone_repo_git at hmem
      by_cases hex : path_exists rp = true
      · rw [if_pos hex] at hmem
        simp at hmem
      · have hex2 : path_exists rp = false := Bool.eq_false_iff.mpr hex
        rw [if_neg hex] at hmem
        by_cases hmk : mkdir_ok rp = true
        · rw [if_pos hmk] at hmem
          by_cases hcl : clone_ok r rp = true
          · rw [if_pos hcl] at hmem
            simp at hmem
            exact ⟨by rw [hmem], hex2⟩
          · rw [if_neg hcl] at hmem
            simp at hmem
            exact ⟨by rw [hmem], hex2⟩
        · rw [if_neg hmk] at hmem
          simp at hmem

end Conductor
